import Mathlib

/-!
Verification development for the NBA news aggregator (`nba7`).

This file gives a shallow embedding, in Lean 4, of the pure pipeline logic of
the repository and proves the specification claims about it:

* `src/src/lib/news-fetcher.ts` — team matching (`matchTeams`), the betting
  filter (`isBettingContent`), and the fuzzy deduplicator (`removeDuplicates`)
  with its text pipeline (`simpleStem`, `articleWordSet`, `extractEntities`,
  `jaccardSimilarity`).
* `src/src/lib/sentiment.ts` — the legacy sentiment revision (namespace
  `SentimentV1`): `getLabel`, `getBreakdown`, `analyzeMultipleSentiments`.
* `src/unnamed/part_001` — the final sentiment revision (namespace
  `SentimentV2`): `normalizePercentages` and its `getBreakdown`.

Modelling conventions:

* Text is modelled as `List Char` (obtained from Lean `String` literals via
  `String.data`).  JavaScript `toLowerCase` is modelled by `Char.toLower`,
  which agrees with it on the ASCII inputs that occur in this code base.
* JavaScript `split(/\s+/)` produces the maximal non-empty runs of
  non-whitespace characters, plus possibly empty boundary tokens; every use
  in the source immediately filters tokens by `length > 1`, so the embedding
  `splitTokens` drops empty tokens directly.
* Timestamps (`published_at`, converted with `new Date(...).getTime()` in the
  source) are modelled directly as epoch milliseconds of type `Int`.
* JavaScript numbers produced by the similarity arithmetic are modelled as
  exact rationals (`ℚ`); `Math.round` is modelled by `jsRound`, which is
  `⌊x + 1/2⌋` (rounding halves toward +∞, as `Math.round` does).
* JS `Set` objects are modelled as duplicate-free lists (`List.dedup` keeps
  one representative per element; only membership and cardinality of the sets
  are ever used by the source, so the representative order is irrelevant).
-/
/-! ## Generic list helpers -/

/-- Boolean test that `p` is a prefix of `l` (character-wise). -/
def startsW : List Char → List Char → Bool
  | [], _ => true
  | _ :: _, [] => false
  | a :: as, b :: bs => a = b && startsW as bs

/-- Boolean test that `s` is a suffix of `l`. -/
def endsW (s l : List Char) : Bool :=
  startsW s.reverse l.reverse

/-- Boolean substring test: JavaScript `l.includes(p)` on strings. -/
def occursIn : List Char → List Char → Bool
  | p, [] => p.isEmpty
  | p, c :: t => startsW p (c :: t) || occursIn p t

/-- Any character of the text may only be crossed by finitely many pattern
splits; this boolean scans them all (used to refute straddling occurrences
for concrete texts). -/
def spanPossible (p a : List Char) : Bool :=
  (List.range p.length).any fun n => decide (0 < n) && endsW (p.take n) a

/-! ## Text pipeline of the deduplicator (news-fetcher.ts) -/

/-- Whitespace characters relevant to the `\s` class on this code base. -/
def isWsChar (c : Char) : Bool :=
  decide (c = ' ' ∨ c = '\t' ∨ c = '\n' ∨ c = '\r')

/-- Split a character list into its maximal non-empty runs of
non-whitespace characters (JavaScript `split(/\s+/)` minus the empty
boundary tokens, which every caller filters away by `length > 1`). -/
def splitTokens (l : List Char) : List (List Char) :=
  let s := l.foldr
    (fun c (acc : List Char × List (List Char)) =>
      if isWsChar c then
        if acc.1.isEmpty then ([], acc.2) else ([], acc.1 :: acc.2)
      else (c :: acc.1, acc.2))
    ([], [])
  if s.1.isEmpty then s.2 else s.1 :: s.2

/-- Lowercasing a word, character by character (ASCII, as in the source
data). -/
def lowerW (w : List Char) : List Char :=
  w.map Char.toLower

/-- The stop-word list `DEDUP_STOP_WORDS` of news-fetcher.ts. -/
def DEDUP_STOP_WORDS : List String :=
  ["a", "an", "the", "is", "are", "was", "were", "be", "been", "being",
   "to", "of", "in", "on", "at", "by", "for", "with", "from", "as",
   "and", "or", "but", "not", "no", "so", "if", "than", "too", "very",
   "after", "before", "into", "about", "up", "out", "off", "over",
   "he", "she", "it", "its", "his", "her", "they", "their", "we",
   "has", "have", "had", "do", "does", "did", "will", "would", "could",
   "may", "might", "can", "should", "shall", "must",
   "this", "that", "these", "those", "who", "what", "when", "where",
   "how", "why", "all", "each", "both", "more", "most", "some", "any",
   "new", "per", "via", "says", "said", "just", "also", "now"]

/-- Stop words as character lists. -/
def stopWordsL : List (List Char) :=
  DEDUP_STOP_WORDS.map String.data

/-- Strip one suffix, replacing it by `rep` (one JavaScript
`replace(/suf$/, rep)` application). -/
def stripSuffix (suf rep w : List Char) : List Char :=
  if endsW suf w then w.take (w.length - suf.length) ++ rep else w

/-- The chained suffix-stripping stemmer `simpleStem` of news-fetcher.ts. -/
def simpleStem (w : List Char) : List Char :=
  if w.length ≤ 3 then w
  else
    let r := (stripSuffix "s".data []
      (stripSuffix "es".data []
        (stripSuffix "ed".data []
          (stripSuffix "ves".data "f".data
            (stripSuffix "ies".data "y".data
              (stripSuffix "ible".data []
                (stripSuffix "able".data []
                  (stripSuffix "ness".data []
                    (stripSuffix "ment".data []
                      (stripSuffix "sion".data "s".data
                        (stripSuffix "tion".data "t".data
                          (stripSuffix "ing".data [] w))))))))))))
    if r.isEmpty then w else r

/-- Character filter of `articleWordSet`: the regex replace
`[^a-z0-9\s] → ' '` applied after lowercasing (whitespace is mapped to a
plain space, which does not change the subsequent whitespace split). -/
def cleanWordChar (c : Char) : Char :=
  if decide (('a' ≤ c ∧ c ≤ 'z') ∨ ('0' ≤ c ∧ c ≤ '9')) then c else ' '

/-- Stemmed content word set of `headline + " " + summary`
(`articleWordSet` of news-fetcher.ts); the JS `Set` is modelled as a
duplicate-free list. -/
def articleWordSet (headline summary : List Char) : List (List Char) :=
  ((((splitTokens (((headline ++ [' '] ++ summary).map Char.toLower).map
        cleanWordChar)).filter
      fun w => decide (1 < w.length) && !decide (w ∈ stopWordsL)).map
    simpleStem).filter fun w => decide (1 < w.length)).dedup

/-- Character filter of `extractEntities`: the regex replace
`[^\w\s'-] → ' '` (word characters, whitespace, apostrophe and hyphen are
kept). -/
def cleanEntityChar (c : Char) : Char :=
  if decide (('a' ≤ c ∧ c ≤ 'z') ∨ ('A' ≤ c ∧ c ≤ 'Z') ∨ ('0' ≤ c ∧ c ≤ '9')
      ∨ c = '_' ∨ c = Char.ofNat 39 ∨ c = '-') ∨ isWsChar c then c else ' '

/-- Entity set of a headline (`extractEntities` of news-fetcher.ts):
capitalized tokens of length > 1 whose lowercasing is not a stop word,
collected lowercased as a duplicate-free list. -/
def extractEntities (headline : List Char) : List (List Char) :=
  ((((splitTokens (headline.map cleanEntityChar)).filter
      fun w => decide (1 < w.length)).filter
    fun w => decide ('A' ≤ w.headD ' ' ∧ w.headD ' ' ≤ 'Z')
      && !decide (lowerW w ∈ stopWordsL)).map lowerW).dedup

/-! ## Jaccard similarity and the duplicate signal -/

/-- Intersection size as the source computes it: the number of elements of
`a` present in `b` (`for word of a: if b.has(word) intersection++`). -/
def interCount (a b : List (List Char)) : ℕ :=
  a.countP fun w => decide (w ∈ b)

/-- Union size `a.size + b.size - intersection`. -/
def unionCount (a b : List (List Char)) : ℕ :=
  a.length + b.length - interCount a b

/-- Jaccard similarity `|A ∩ B| / |A ∪ B|` of `jaccardSimilarity` in
news-fetcher.ts, as an exact rational. -/
def jaccardSimilarity (a b : List (List Char)) : ℚ :=
  if a.length = 0 ∧ b.length = 0 then 0
  else if unionCount a b = 0 then 0
  else (interCount a b : ℚ) / (unionCount a b : ℚ)

/-- The comparison `jaccardSimilarity a b >= 0.45`
(`FUZZY_SIMILARITY_THRESHOLD`), in cross-multiplied integer form so that it
evaluates by kernel reduction; `similarityGE_iff` below proves it equal to
the rational comparison the source performs. -/
def similarityGE (a b : List (List Char)) : Bool :=
  decide (unionCount a b ≠ 0 ∧ 9 * unionCount a b ≤ 20 * interCount a b)

/-! ## Articles and the deduplicator (news-fetcher.ts, `removeDuplicates`) -/

/-- A normalized news article (`NewsItem` of the source, restricted to the
fields the pipeline reads or passes through; `published_at` is the epoch
millisecond value of the source's date string). -/
structure NewsItem where
  id : String
  headline : String
  summary : String
  source : String
  url : String
  published_at : Int
deriving DecidableEq

/-- Precomputed comparison data of one article, as built at the top of
`removeDuplicates`: word set, entity set and timestamp. -/
structure DedupItem where
  article : NewsItem
  words : List (List Char)
  entities : List (List Char)
  time : Int
deriving DecidableEq

/-- The `items` precomputation of `removeDuplicates`. -/
def precompute (a : NewsItem) : DedupItem :=
  { article := a
    words := articleWordSet a.headline.data a.summary.data
    entities := extractEntities a.headline.data
    time := a.published_at }

/-- Out-of-range default used by positional reads (never reached on the
index ranges the loops use). -/
def defaultItem : DedupItem :=
  precompute { id := "", headline := "", summary := "", source := "", url := ""
               published_at := 0 }

/-- Positional read of the `items` array. -/
def itemAt (items : List DedupItem) (k : ℕ) : DedupItem :=
  items.getD k defaultItem

/-- `DEDUP_TIME_WINDOW_MS = 12 * 60 * 60 * 1000`. -/
def DEDUP_TIME_WINDOW_MS : Int := 12 * 60 * 60 * 1000

/-- `MIN_SHARED_ENTITIES`. -/
def MIN_SHARED_ENTITIES : ℕ := 2

/-- The duplicate test of one pair: word-set similarity at least the fuzzy
threshold, or at least `MIN_SHARED_ENTITIES` shared entities. -/
def isDupPair (x y : DedupItem) : Bool :=
  similarityGE x.words y.words
    || decide (MIN_SHARED_ENTITIES ≤ interCount x.entities y.entities)

/-- One inner-loop body of `removeDuplicates`, reduced to which index (if
any) it marks as duplicate: `none` when `isDuplicate[j]` is already set,
when the articles are more than 12 hours apart, or when the pair does not
qualify; otherwise the older index (`j` if `time i >= time j`, else `i`). -/
def markTarget (items : List DedupItem) (marks : List Bool) (i j : ℕ) :
    Option ℕ :=
  if marks.getD j false then none
  else if DEDUP_TIME_WINDOW_MS < |(itemAt items i).time - (itemAt items j).time|
    then none
  else if isDupPair (itemAt items i) (itemAt items j) then
    (if (itemAt items j).time ≤ (itemAt items i).time then some j else some i)
  else none

/-- One inner-loop step: apply the mark computed by `markTarget`. -/
def stepInner (items : List DedupItem) (i : ℕ) (marks : List Bool) (j : ℕ) :
    List Bool :=
  match markTarget items marks i j with
  | none => marks
  | some k => marks.set k true

/-- The inner loop `for (j = i + 1; j < items.length; j++)`. -/
def runInner (items : List DedupItem) (i : ℕ) (marks : List Bool) :
    List Bool :=
  (List.range' (i + 1) (items.length - (i + 1))).foldl (stepInner items i) marks

/-- One outer-loop step: skip the iteration when `isDuplicate[i]` is already
set, else run the inner loop. -/
def stepOuter (items : List DedupItem) (marks : List Bool) (i : ℕ) :
    List Bool :=
  if marks.getD i false then marks else runInner items i marks

/-- The full marking phase of `removeDuplicates`: the final `isDuplicate`
array. -/
def computeMarks (items : List DedupItem) : List Bool :=
  (List.range items.length).foldl (stepOuter items)
    (List.replicate items.length false)

/-- The precomputed items of an article list. -/
def dedupItems (articles : List NewsItem) : List DedupItem :=
  articles.map precompute

/-- The final `isDuplicate` array of an article list. -/
def dedupMarks (articles : List NewsItem) : List Bool :=
  computeMarks (dedupItems articles)

/-- The surviving articles, in input order
(`items.filter((_, i) => !isDuplicate[i]).map(item => item.article)`). -/
def dedupSurvivors (articles : List NewsItem) : List NewsItem :=
  ((List.range (dedupItems articles).length).filter
    fun i => !((dedupMarks articles).getD i false)).map
      fun i => (itemAt (dedupItems articles) i).article

/-- The recency comparator of the final sort
(`(a, b) => time b - time a`, i.e. newest first; JavaScript's sort is
stable, modelled by `List.mergeSort`). -/
def newerLe (x y : NewsItem) : Bool :=
  decide (y.published_at ≤ x.published_at)

/-- `removeDuplicates` of news-fetcher.ts. -/
def removeDuplicates (articles : List NewsItem) : List NewsItem :=
  if articles.isEmpty then []
  else (dedupSurvivors articles).mergeSort newerLe

/-- The pair-qualification predicate of the claims: the two precomputed
items are within the 12-hour window and their similarity or shared-entity
count qualifies. -/
def dupQualifies (x y : DedupItem) : Bool :=
  decide (|x.time - y.time| ≤ DEDUP_TIME_WINDOW_MS) && isDupPair x y

/-! ## Instrumented deduplicator run (for the pair-comparison claims) -/

/-- One recorded pair comparison of the dedup loops: outer index `i`, inner
index `j`, whether each article was still unremoved when the pair was
visited, and which index (if any) the visit marked as removed. -/
structure DedupEvent where
  i : ℕ
  j : ℕ
  iLive : Bool
  jLive : Bool
  marked : Option ℕ
deriving DecidableEq

/-- Instrumented inner-loop step: record the visit, then apply the mark. -/
def stepInnerT (items : List DedupItem) (i : ℕ)
    (s : List Bool × List DedupEvent) (j : ℕ) :
    List Bool × List DedupEvent :=
  (stepInner items i s.1 j,
   s.2 ++ [{ i := i, j := j, iLive := !(s.1.getD i false),
             jLive := !(s.1.getD j false), marked := markTarget items s.1 i j }])

/-- Instrumented inner loop. -/
def runInnerT (items : List DedupItem) (i : ℕ)
    (s : List Bool × List DedupEvent) : List Bool × List DedupEvent :=
  (List.range' (i + 1) (items.length - (i + 1))).foldl (stepInnerT items i) s

/-- Instrumented outer-loop step. -/
def stepOuterT (items : List DedupItem) (s : List Bool × List DedupEvent)
    (i : ℕ) : List Bool × List DedupEvent :=
  if s.1.getD i false then s else runInnerT items i s

/-- The full comparison trace of one `removeDuplicates` run. -/
def dedupTrace (articles : List NewsItem) : List DedupEvent :=
  ((List.range (dedupItems articles).length).foldl (stepOuterT (dedupItems articles))
    (List.replicate (dedupItems articles).length false, [])).2

/-! ## Team matching and the betting filter (news-fetcher.ts) -/

/-- The team keyword registry `TEAM_KEYWORDS` of constants.ts: thirty teams,
each with its keyword list. -/
def TEAM_KEYWORDS : List (String × List String) :=
  [("LAL", ["lakers", "lebron", "anthony davis", "la lakers", "los angeles lakers"]),
   ("GSW", ["warriors", "golden state", "stephen curry", "steph curry", "klay thompson", "draymond"]),
   ("BOS", ["celtics", "boston", "jayson tatum", "jaylen brown"]),
   ("MIA", ["heat", "miami", "jimmy butler", "bam adebayo"]),
   ("PHX", ["suns", "phoenix", "kevin durant", "devin booker"]),
   ("MIL", ["bucks", "milwaukee", "giannis", "antetokounmpo"]),
   ("DEN", ["nuggets", "denver", "jokic", "nikola jokic"]),
   ("PHI", ["76ers", "sixers", "philadelphia", "joel embiid"]),
   ("NYK", ["knicks", "new york knicks", "jalen brunson"]),
   ("DAL", ["mavericks", "mavs", "dallas", "luka doncic", "kyrie irving"]),
   ("LAC", ["clippers", "la clippers", "kawhi leonard", "paul george"]),
   ("BKN", ["nets", "brooklyn"]),
   ("ATL", ["hawks", "atlanta", "trae young"]),
   ("CHI", ["bulls", "chicago bulls"]),
   ("CLE", ["cavaliers", "cavs", "cleveland", "donovan mitchell"]),
   ("DET", ["pistons", "detroit"]),
   ("IND", ["pacers", "indiana", "tyrese haliburton"]),
   ("TOR", ["raptors", "toronto"]),
   ("CHA", ["hornets", "charlotte"]),
   ("ORL", ["magic", "orlando", "paolo banchero"]),
   ("WAS", ["wizards", "washington"]),
   ("MIN", ["timberwolves", "wolves", "minnesota", "anthony edwards"]),
   ("OKC", ["thunder", "oklahoma", "shai gilgeous"]),
   ("POR", ["blazers", "trail blazers", "portland"]),
   ("UTA", ["jazz", "utah"]),
   ("SAC", ["kings", "sacramento"]),
   ("HOU", ["rockets", "houston"]),
   ("MEM", ["grizzlies", "memphis", "ja morant"]),
   ("NOP", ["pelicans", "new orleans", "zion williamson"]),
   ("SAS", ["spurs", "san antonio", "victor wembanyama", "wemby"])]

/-- `matchTeams` of news-fetcher.ts: scan the registry in order and collect
each team whose keyword list has a substring match in the lowercased
`headline + " " + (content || "")`; the `break` after the first matching
keyword only short-circuits the keyword scan, so a team is collected exactly
when some keyword matches and it is not yet collected. -/
def matchTeams (headline : String) (content : Option String) : List String :=
  TEAM_KEYWORDS.foldl
    (fun acc p =>
      if (p.2.any fun k => occursIn k.data
            ((headline.data ++ [' '] ++ (content.getD "").data).map Char.toLower))
          && !(decide (p.1 ∈ acc))
      then acc ++ [p.1] else acc)
    []

/-- The betting/promotional deny-list `BETTING_KEYWORDS` of news-fetcher.ts. -/
def BETTING_KEYWORDS : List String :=
  ["promo code", "bonus bets", "best bets", "player props", "betting odds",
   "betting", "wager", "sportsline", "draftkings", "fanduel", "betmgm",
   "affiliate", "expert picks", "against the spread", "parlay"]

/-- `isBettingContent` of news-fetcher.ts: any deny-list keyword occurs in
the lowercased `title + " " + description`. -/
def isBettingContent (title description : String) : Bool :=
  BETTING_KEYWORDS.any fun k =>
    occursIn k.data ((title.data ++ [' '] ++ description.data).map Char.toLower)

/-! ## Sentiment analysis (sentiment.ts, both revisions) -/

/-- Sentiment labels. -/
inductive SentimentLabel where
  | positive
  | neutral
  | negative
deriving DecidableEq

/-- `Math.round`: round to the nearest integer, halves toward +∞. -/
def jsRound (q : ℚ) : ℤ := ⌊q + 1 / 2⌋

/-- A sentiment percentage breakdown as emitted to callers. -/
structure SentimentBreakdown where
  positive : ℤ
  neutral : ℤ
  negative : ℤ
deriving DecidableEq

/-- `getLabel` (identical in both revisions): VADER-threshold labelling of a
compound score. -/
def getLabel (score : ℚ) : SentimentLabel :=
  if 1 / 20 ≤ score then .positive
  else if score ≤ -(1 / 20) then .negative
  else .neutral

/-- `getEmoji` (identical in both revisions). -/
def getEmoji (label : SentimentLabel) : String :=
  match label with
  | .positive => "🟢"
  | .negative => "🔴"
  | .neutral => "🟡"

/-- Result shape of `analyzeMultipleSentiments`. -/
structure MultiResult where
  score : ℚ
  label : SentimentLabel
  emoji : String
  breakdown : SentimentBreakdown
  commentCount : ℕ
deriving DecidableEq

namespace SentimentV1

/-- `getBreakdown` of the legacy revision `src/src/lib/sentiment.ts`
(lines 92–117): three independently rounded values synthesized from the
compound score, with no rounding correction. -/
def getBreakdown (score : ℚ) : SentimentBreakdown :=
  let normalized := (score + 1) / 2
  if 1 / 20 ≤ score then
    { positive := jsRound (50 + normalized * 40)
      neutral := jsRound (20 + (1 - normalized) * 20)
      negative := jsRound (10 + (1 - normalized) * 10) }
  else if score ≤ -(1 / 20) then
    { positive := jsRound (10 + normalized * 10)
      neutral := jsRound (20 + normalized * 20)
      negative := jsRound (50 + (1 - normalized) * 40) }
  else
    { positive := jsRound (25 + normalized * 15)
      neutral := jsRound (40 + |1 / 2 - normalized| * 20)
      negative := jsRound (25 + (1 - normalized) * 15) }

/-- `analyzeMultipleSentiments` of the legacy revision (lines 144–195),
parameterized by the external VADER scorer `score : String → ℚ` (the spec
treats the polarity analyzer as a pluggable text-to-score capability). -/
def analyzeMultipleSentiments (score : String → ℚ) (texts : List String) :
    MultiResult :=
  if texts.isEmpty then
    { score := 0, label := .neutral, emoji := "🟡"
      breakdown := { positive := 0, neutral := 100, negative := 0 }
      commentCount := 0 }
  else
    let sentiments := texts.map fun t => (score t, getLabel (score t))
    let positive := sentiments.countP fun s => decide (s.2 = .positive)
    let neutral := sentiments.countP fun s => decide (s.2 = .neutral)
    let negative := sentiments.countP fun s => decide (s.2 = .negative)
    let total := sentiments.length
    let avgScore := (sentiments.map fun s => s.1).sum / (total : ℚ)
    { score := avgScore
      label := getLabel avgScore
      emoji := getEmoji (getLabel avgScore)
      breakdown :=
        { positive := jsRound (((positive : ℚ) / (total : ℚ)) * 100)
          neutral := jsRound (((neutral : ℚ) / (total : ℚ)) * 100)
          negative := jsRound (((negative : ℚ) / (total : ℚ)) * 100) }
      commentCount := total }

end SentimentV1

namespace SentimentV2

/-- `normalizePercentages` of the final revision `src/unnamed/part_001`:
round the three raw percentages independently, then add the signed
difference from 100 to the largest rounded value; `vals.indexOf(Math.max(...))`
picks the first index attaining the maximum, which is index 0 iff
`ra ≥ rb ∧ ra ≥ rc`, else index 1 iff `rb ≥ rc`, else index 2. -/
def normalizePercentages (a b c : ℚ) : ℤ × ℤ × ℤ :=
  let ra := jsRound a
  let rb := jsRound b
  let rc := jsRound c
  let diff := 100 - (ra + rb + rc)
  if ra ≥ rb ∧ ra ≥ rc then (ra + diff, rb, rc)
  else if rb ≥ rc then (ra, rb + diff, rc)
  else (ra, rb, rc + diff)

/-- The raw `(rawPositive, rawNeutral, rawNegative)` shares computed by
`getBreakdown` of the final revision `src/unnamed/part_001` before the
rounding correction; they sum to 100 by construction. -/
def rawShares (score : ℚ) : ℚ × ℚ × ℚ :=
  let normalized := (score + 1) / 2
  if 1 / 20 ≤ score then
    let rawPositive := 50 + normalized * 30
    let rawNegative := 5 + (1 - normalized) * 10
    (rawPositive, 100 - rawPositive - rawNegative, rawNegative)
  else if score ≤ -(1 / 20) then
    let rawNegative := 50 + (1 - normalized) * 30
    let rawPositive := 5 + normalized * 10
    (rawPositive, 100 - rawPositive - rawNegative, rawNegative)
  else
    let rawNeutral := 50 + (1 - |score| * 20) * 5
    let rawPositive := (100 - rawNeutral) * (1 / 2 + score)
    (rawPositive, rawNeutral, 100 - rawNeutral - rawPositive)

/-- `getBreakdown` of the final revision `src/unnamed/part_001`: the raw
shares passed through `normalizePercentages`. -/
def getBreakdown (score : ℚ) : SentimentBreakdown :=
  { positive := (normalizePercentages (rawShares score).1 (rawShares score).2.1
      (rawShares score).2.2).1
    neutral := (normalizePercentages (rawShares score).1 (rawShares score).2.1
      (rawShares score).2.2).2.1
    negative := (normalizePercentages (rawShares score).1 (rawShares score).2.1
      (rawShares score).2.2).2.2 }

end SentimentV2

/-! ## Remaining definitions: marking order and concrete inputs -/

/-- Pointwise order on mark arrays: every set flag stays set. -/
def MarksLe (m m' : List Bool) : Prop :=
  ∀ k, m.getD k false = true → m'.getD k false = true

/-- Default article used by out-of-range positional reads. -/
def defaultNews : NewsItem :=
  { id := "", headline := "", summary := "", source := "", url := ""
    published_at := 0 }

/-- Concrete scorer standing in for the external VADER analyzer in the
failing-input evaluation of the legacy aggregator. -/
def cexScorer : String → ℚ :=
  fun t => if t = "good" then 1 / 2 else if t = "bad" then -(1 / 2) else 0

/-- Concrete article A (1 hour): shares two entities with both B and C. -/
def exDedupA : NewsItem :=
  { id := "a", headline := "LeBron Davis Warriors Curry", summary := ""
    source := "ESPN", url := "https://ex/a", published_at := 3600000 }

/-- Concrete article B (2 hours): shares two entities with A only. -/
def exDedupB : NewsItem :=
  { id := "b", headline := "LeBron Davis", summary := ""
    source := "CBS Sports", url := "https://ex/b", published_at := 7200000 }

/-- Concrete article C (0 hours): shares two entities with A only. -/
def exDedupC : NewsItem :=
  { id := "c", headline := "Warriors Curry", summary := ""
    source := "ESPN", url := "https://ex/c", published_at := 0 }

/-- Concrete three-article input on which article A is removed mid-iteration
and then removes C. -/
def exDedupList : List NewsItem := [exDedupA, exDedupB, exDedupC]

/-- Witness article: headline pair published 12 h 1 s apart. -/
def exWinA : NewsItem :=
  { id := "w1", headline := "Same Headline Words", summary := ""
    source := "ESPN", url := "https://ex/w1", published_at := 0 }

/-- Witness article: identical headline, 12 h 1 s later. -/
def exWinB : NewsItem :=
  { id := "w2", headline := "Same Headline Words", summary := ""
    source := "CBS Sports", url := "https://ex/w2", published_at := 43201000 }

/-- Witness article: headline pair published 11 h 59 m apart. -/
def exSimA : NewsItem :=
  { id := "s1", headline := "Same Headline Words", summary := ""
    source := "ESPN", url := "https://ex/s1", published_at := 0 }

/-- Witness article: identical headline, 11 h 59 m later. -/
def exSimB : NewsItem :=
  { id := "s2", headline := "Same Headline Words", summary := ""
    source := "CBS Sports", url := "https://ex/s2", published_at := 43140000 }

/-- Witness article: two shared entities, low word overlap (first). -/
def exEntA : NewsItem :=
  { id := "e1", headline := "LeBron Davis shine"
    summary := "big convincing victory parade downtown crowd celebrate"
    source := "ESPN", url := "https://ex/e1", published_at := 0 }

/-- Witness article: two shared entities, low word overlap (second). -/
def exEntB : NewsItem :=
  { id := "e2", headline := "LeBron Davis doubtful"
    summary := "injury report practice knee soreness update questionable"
    source := "CBS Sports", url := "https://ex/e2", published_at := 1000000 }

/-! ## Pair-comparison trace properties -/

/-- Invariant of the comparison trace: a visit whose second article was
already removed performs no marking, and a visit whose first (outer) article
was already removed can only happen after an earlier visit of the same outer
iteration marked that article. -/
def TraceInv (tr : List DedupEvent) : Prop :=
  ∀ e ∈ tr, (e.jLive = false → e.marked = none) ∧
    (e.iLive = false → ∃ e' ∈ tr, e'.i = e.i ∧ e'.marked = some e.i)

/-! ## Theorems -/

theorem startsW_refl (l : List Char) : startsW l l = true := by
  induction l with
  | nil => rfl
  | cons a as ih => simp [startsW, ih]

theorem startsW_append_right {p l : List Char} (x : List Char)
    (h : startsW p l = true) : startsW p (l ++ x) = true := by
  induction p generalizing l with
  | nil => rfl
  | cons a as ih =>
    cases l with
    | nil => simp [startsW] at h
    | cons b bs =>
      simp only [startsW, Bool.and_eq_true] at h ⊢
      exact ⟨h.1, ih h.2⟩

theorem endsW_cons {s l : List Char} (c : Char)
    (h : endsW s l = true) : endsW s (c :: l) = true := by
  unfold endsW at h ⊢
  rw [List.reverse_cons]
  exact startsW_append_right [c] h

theorem endsW_refl (l : List Char) : endsW l l = true :=
  startsW_refl l.reverse

theorem occursIn_of_startsW {p l : List Char} (h : startsW p l = true) :
    occursIn p l = true := by
  cases l with
  | nil =>
    cases p with
    | nil => rfl
    | cons a as => simp [startsW] at h
  | cons c t => simp [occursIn, h]

theorem occursIn_append_left {p a : List Char} (b : List Char)
    (h : occursIn p a = true) : occursIn p (a ++ b) = true := by
  induction a with
  | nil =>
    simp only [occursIn, List.isEmpty_iff] at h
    subst h
    cases b with
    | nil => rfl
    | cons c t => exact occursIn_of_startsW rfl
  | cons c t ih =>
    simp only [occursIn, Bool.or_eq_true] at h
    rcases h with h | h
    · exact Bool.or_eq_true_iff.mpr (Or.inl (startsW_append_right b h))
    · exact Bool.or_eq_true_iff.mpr (Or.inr (ih h))

/-- Splitting a prefix test across an append: either the pattern fits inside
the first part, or it spills over with a determined split. -/
theorem startsW_append_cases {p x y : List Char}
    (h : startsW p (x ++ y) = true) :
    (p.length ≤ x.length ∧ startsW p x = true) ∨
      (x.length < p.length ∧ p.take x.length = x ∧
        startsW (p.drop x.length) y = true) := by
  induction x generalizing p with
  | nil =>
    cases p with
    | nil => exact Or.inl ⟨Nat.le_refl _, by rfl⟩
    | cons a as =>
      refine Or.inr ⟨?_, ?_, ?_⟩
      · exact Nat.succ_pos _
      · rfl
      · exact h
  | cons b bs ih =>
    cases p with
    | nil => exact Or.inl ⟨Nat.zero_le _, rfl⟩
    | cons a as =>
      simp only [List.cons_append, startsW, Bool.and_eq_true] at h
      rcases ih h.2 with ⟨hle, hs⟩ | ⟨hlt, ht, hd⟩
      · exact Or.inl ⟨Nat.succ_le_succ hle, by
          simp only [startsW, Bool.and_eq_true]; exact ⟨h.1, hs⟩⟩
      · refine Or.inr ⟨Nat.succ_lt_succ hlt, ?_, hd⟩
        simp only [List.length_cons, List.take_succ_cons, ht, List.cons.injEq]
        exact ⟨by simpa using h.1, trivial⟩

/-- Occurrence in an append decomposes: inside the left part, inside the
right part, or straddling the boundary with a non-trivial split of the
pattern. -/
theorem occursIn_append_cases {p a b : List Char}
    (h : occursIn p (a ++ b) = true) :
    occursIn p a = true ∨ occursIn p b = true ∨
      ∃ n, 0 < n ∧ n < p.length ∧ endsW (p.take n) a = true ∧
        startsW (p.drop n) b = true := by
  induction a with
  | nil => exact Or.inr (Or.inl h)
  | cons c t ih =>
    simp only [List.cons_append, occursIn, Bool.or_eq_true] at h
    rcases h with h | h
    · rcases startsW_append_cases (x := c :: t) h with ⟨hle, hs⟩ | ⟨hlt, ht, hd⟩
      · exact Or.inl (occursIn_of_startsW hs)
      · refine Or.inr (Or.inr ⟨(c :: t).length, Nat.succ_pos _, hlt, ?_, hd⟩)
        rw [ht]; exact endsW_refl _
    · rcases ih h with h' | h' | ⟨n, hn0, hnp, he, hs⟩
      · exact Or.inl (by simp [occursIn, h'])
      · exact Or.inr (Or.inl h')
      · exact Or.inr (Or.inr ⟨n, hn0, hnp, endsW_cons c he, hs⟩)

theorem not_occursIn_append {p a b : List Char}
    (ha : occursIn p a = false) (hspan : spanPossible p a = false)
    (hb : occursIn p b = false) : occursIn p (a ++ b) = false := by
  by_contra hcon
  rcases occursIn_append_cases (Bool.not_eq_false _ ▸ hcon) with h | h | ⟨n, hn0, hnp, he, _⟩
  · rw [ha] at h; exact Bool.false_ne_true h
  · rw [hb] at h; exact Bool.false_ne_true h
  · have : spanPossible p a = true := by
      unfold spanPossible
      rw [List.any_eq_true]
      exact ⟨n, List.mem_range.mpr hnp, by simp [hn0, he]⟩
    rw [hspan] at this; exact Bool.false_ne_true this

/-- Element `getD` after `set`: setting index `i` does not change other
indices. -/
theorem getD_set_ne {m : List Bool} {i k : ℕ} (h : i ≠ k) (b d : Bool) :
    (m.set i b).getD k d = m.getD k d := by
  simp [List.getD_eq_getElem?_getD, List.getElem?_set_ne h]

/-- Element `getD` after `set` at the written index (in bounds). -/
theorem getD_set_self {m : List Bool} {i : ℕ} (h : i < m.length) (b d : Bool) :
    (m.set i b).getD i d = b := by
  simp [List.getD_eq_getElem?_getD, List.getElem?_set_self', h]

/-- Reconstructing a list from positional reads over its index range. -/
theorem map_getD_range {α : Type} (l : List α) (d : α) :
    (List.range l.length).map (fun i => l.getD i d) = l := by
  induction l with
  | nil => rfl
  | cons a t ih =>
    rw [List.length_cons, List.range_succ_eq_map, List.map_cons, List.map_map]
    have hcomp : ((fun i => (a :: t).getD i d) ∘ Nat.succ) =
        (fun i => t.getD i d) := funext fun i => rfl
    rw [hcomp, ih]
    rfl

/-- A fold that never changes the state is the identity. -/
theorem foldl_fixed_of {α β : Type} {f : β → α → β} {b : β} {l : List α}
    (h : ∀ x ∈ l, f b x = b) : l.foldl f b = b := by
  induction l with
  | nil => rfl
  | cons a t ih =>
    rw [List.foldl_cons, h a (List.mem_cons_self a t)]
    exact ih fun x hx => h x (List.mem_cons_of_mem a hx)

theorem interCount_le_length (a b : List (List Char)) :
    interCount a b ≤ a.length :=
  List.countP_le_length _

theorem similarityGE_iff (a b : List (List Char)) :
    similarityGE a b = true ↔ (9 : ℚ) / 20 ≤ jaccardSimilarity a b := by
  unfold similarityGE jaccardSimilarity
  by_cases hu : unionCount a b = 0
  · have hzero : ¬ ((9 : ℚ) / 20 ≤ 0) := by norm_num
    rcases Decidable.em (a.length = 0 ∧ b.length = 0) with hab | hab
    · simp [hu, hab, hzero]
    · simp [hu, hab, hzero]
  · have hab : ¬ (a.length = 0 ∧ b.length = 0) := by
      rintro ⟨ha, hb⟩
      have : interCount a b ≤ 0 := ha ▸ interCount_le_length a b
      unfold unionCount at hu
      omega
    have hupos : (0 : ℚ) < (unionCount a b : ℚ) := by
      exact_mod_cast Nat.pos_of_ne_zero hu
    rw [if_neg hab, if_neg hu]
    rw [div_le_div_iff₀ (by norm_num) hupos]
    constructor
    · intro h
      have h' := (decide_eq_true_iff).mp h
      have h'' : (9 : ℚ) * unionCount a b ≤ 20 * interCount a b := by
        exact_mod_cast h'.2
      linarith
    · intro h
      refine decide_eq_true_iff.mpr ⟨hu, ?_⟩
      have h'' : (9 : ℚ) * unionCount a b ≤ 20 * interCount a b := by linarith
      exact_mod_cast h''

theorem similarityGE_eq_false_iff (a b : List (List Char)) :
    similarityGE a b = false ↔ jaccardSimilarity a b < (9 : ℚ) / 20 := by
  rw [← not_le, ← similarityGE_iff]
  cases h : similarityGE a b <;> simp [h]

/-! ## Sentiment theorems -/

theorem jsRound_eq_round (q : ℚ) : jsRound q = round q := (round_eq q).symm

theorem jsRound_abs_le (q : ℚ) : |(jsRound q : ℚ) - q| ≤ 1 / 2 := by
  rw [jsRound_eq_round, abs_sub_comm]
  exact abs_sub_round q

theorem jsRound_nonneg {q : ℚ} (h : 0 ≤ q) : 0 ≤ jsRound q := by
  unfold jsRound
  rw [Int.floor_nonneg]
  linarith

/-- Core property of the rounding-correction step shared by all emission
paths of the final sentiment revision. -/
theorem normalizePercentages_spec (a b c : ℚ) (ha : 0 ≤ a) (hb : 0 ≤ b)
    (hc : 0 ≤ c) (hsum : a + b + c = 100) :
    0 ≤ (SentimentV2.normalizePercentages a b c).1 ∧
    0 ≤ (SentimentV2.normalizePercentages a b c).2.1 ∧
    0 ≤ (SentimentV2.normalizePercentages a b c).2.2 ∧
    (SentimentV2.normalizePercentages a b c).1 +
      (SentimentV2.normalizePercentages a b c).2.1 +
      (SentimentV2.normalizePercentages a b c).2.2 = 100 ∧
    |((SentimentV2.normalizePercentages a b c).1 : ℚ) - a| ≤ 2 ∧
    |((SentimentV2.normalizePercentages a b c).2.1 : ℚ) - b| ≤ 2 ∧
    |((SentimentV2.normalizePercentages a b c).2.2 : ℚ) - c| ≤ 2 := by
  have hba := abs_le.mp (jsRound_abs_le a)
  have hbb := abs_le.mp (jsRound_abs_le b)
  have hbc := abs_le.mp (jsRound_abs_le c)
  have hna := jsRound_nonneg ha
  have hnb := jsRound_nonneg hb
  have hnc := jsRound_nonneg hc
  set ra := jsRound a with hra
  set rb := jsRound b with hrb
  set rc := jsRound c with hrc
  have hsq1 : (98 : ℚ) < ((ra + rb + rc : ℤ) : ℚ) := by push_cast; linarith
  have hsq2 : ((ra + rb + rc : ℤ) : ℚ) < 102 := by push_cast; linarith
  have hs1 : (98 : ℤ) < ra + rb + rc := by exact_mod_cast hsq1
  have hs2 : ra + rb + rc < (102 : ℤ) := by exact_mod_cast hsq2
  unfold SentimentV2.normalizePercentages
  rw [← hra, ← hrb, ← hrc]
  by_cases h1 : ra ≥ rb ∧ ra ≥ rc
  · rw [if_pos h1]
    have hmax : 99 ≤ 3 * ra := by omega
    have hcast : |((ra + (100 - (ra + rb + rc)) : ℤ) : ℚ) - a| ≤ 2 := by
      rw [abs_le]; push_cast
      constructor <;> [nlinarith [hba.1, hs2]; nlinarith [hba.2, hs1]]
    refine ⟨by omega, hnb, hnc, by ring, hcast, ?_, ?_⟩
    · rw [abs_le]; exact ⟨by linarith [hbb.1], by linarith [hbb.2]⟩
    · rw [abs_le]; exact ⟨by linarith [hbc.1], by linarith [hbc.2]⟩
  · rw [if_neg h1]
    by_cases h2 : rb ≥ rc
    · rw [if_pos h2]
      have hmax : 99 ≤ 3 * rb := by omega
      have hcast : |((rb + (100 - (ra + rb + rc)) : ℤ) : ℚ) - b| ≤ 2 := by
        rw [abs_le]; push_cast
        constructor <;> [nlinarith [hbb.1, hs2]; nlinarith [hbb.2, hs1]]
      refine ⟨hna, by show 0 ≤ rb + (100 - (ra + rb + rc)); omega, hnc,
        by ring, ?_, hcast, ?_⟩
      · rw [abs_le]; exact ⟨by linarith [hba.1], by linarith [hba.2]⟩
      · rw [abs_le]; exact ⟨by linarith [hbc.1], by linarith [hbc.2]⟩
    · rw [if_neg h2]
      have hmax : 99 ≤ 3 * rc := by omega
      have hcast : |((rc + (100 - (ra + rb + rc)) : ℤ) : ℚ) - c| ≤ 2 := by
        rw [abs_le]; push_cast
        constructor <;> [nlinarith [hbc.1, hs2]; nlinarith [hbc.2, hs1]]
      refine ⟨hna, hnb, by show 0 ≤ rc + (100 - (ra + rb + rc)); omega,
        by ring, ?_, ?_, hcast⟩
      · rw [abs_le]; exact ⟨by linarith [hba.1], by linarith [hba.2]⟩
      · rw [abs_le]; exact ⟨by linarith [hbb.1], by linarith [hbb.2]⟩

/-- C4: for every triple of non-negative rational percentages summing to
100, `normalizePercentages` (src/unnamed/part_001) returns non-negative
integers summing to exactly 100, each within 2 of its unrounded input. -/
theorem normalizePercentages_correct (a b c : ℚ) (ha : 0 ≤ a) (hb : 0 ≤ b)
    (hc : 0 ≤ c) (hsum : a + b + c = 100) :
    0 ≤ (SentimentV2.normalizePercentages a b c).1 ∧
    0 ≤ (SentimentV2.normalizePercentages a b c).2.1 ∧
    0 ≤ (SentimentV2.normalizePercentages a b c).2.2 ∧
    (SentimentV2.normalizePercentages a b c).1 +
      (SentimentV2.normalizePercentages a b c).2.1 +
      (SentimentV2.normalizePercentages a b c).2.2 = 100 ∧
    |((SentimentV2.normalizePercentages a b c).1 : ℚ) - a| ≤ 2 ∧
    |((SentimentV2.normalizePercentages a b c).2.1 : ℚ) - b| ≤ 2 ∧
    |((SentimentV2.normalizePercentages a b c).2.2 : ℚ) - c| ≤ 2 :=
  normalizePercentages_spec a b c ha hb hc hsum

/-- C4 witness: the theorem applied at the concrete triple
`(100/3, 100/3, 100/3)`. -/
theorem normalizePercentages_correct_witness :
    ((0 : ℚ) ≤ 100 / 3 ∧ (100 : ℚ) / 3 + 100 / 3 + 100 / 3 = 100) ∧
    (SentimentV2.normalizePercentages (100 / 3) (100 / 3) (100 / 3)).1 +
      (SentimentV2.normalizePercentages (100 / 3) (100 / 3) (100 / 3)).2.1 +
      (SentimentV2.normalizePercentages (100 / 3) (100 / 3) (100 / 3)).2.2 = 100 :=
  ⟨⟨by norm_num, by norm_num⟩,
    (normalizePercentages_correct (100 / 3) (100 / 3) (100 / 3)
      (by norm_num) (by norm_num) (by norm_num) (by norm_num)).2.2.2.1⟩

/-- C9: the multi-text aggregator returns the neutral/zero/100%-neutral
default on the empty text list (legacy revision src/src/lib/sentiment.ts,
lines 153–159), rather than failing. -/
theorem analyzeMultipleSentiments_empty (score : String → ℚ) :
    SentimentV1.analyzeMultipleSentiments score [] =
      { score := 0, label := .neutral, emoji := "🟡"
        breakdown := { positive := 0, neutral := 100, negative := 0 }
        commentCount := 0 } := rfl

/-- C1: failing-input evaluation of the legacy emission paths
(src/src/lib/sentiment.ts). `getBreakdown` at compound score 1 emits
`(90, 20, 10)`, which sums to 120, and the multi-text aggregator on one
positive, one neutral and one negative comment emits `(33, 33, 33)`, which
sums to 99 — both contradicting the specified sum-to-100 invariant that the
final revision (src/unnamed/part_001) enforces via `normalizePercentages`. -/
theorem legacy_emission_failing_input :
    SentimentV1.getBreakdown 1 =
      { positive := 90, neutral := 20, negative := 10 } ∧
    (SentimentV1.getBreakdown 1).positive + (SentimentV1.getBreakdown 1).neutral +
      (SentimentV1.getBreakdown 1).negative = 120 ∧
    (SentimentV1.analyzeMultipleSentiments cexScorer
        ["good", "meh", "bad"]).breakdown =
      { positive := 33, neutral := 33, negative := 33 } ∧
    (SentimentV1.analyzeMultipleSentiments cexScorer
        ["good", "meh", "bad"]).breakdown.positive +
      (SentimentV1.analyzeMultipleSentiments cexScorer
        ["good", "meh", "bad"]).breakdown.neutral +
      (SentimentV1.analyzeMultipleSentiments cexScorer
        ["good", "meh", "bad"]).breakdown.negative = 99 := by
  have h1 : SentimentV1.getBreakdown 1 =
      { positive := 90, neutral := 20, negative := 10 } := by
    unfold SentimentV1.getBreakdown jsRound
    norm_num
  have hg : cexScorer "good" = 1 / 2 := rfl
  have hm : cexScorer "meh" = 0 := rfl
  have hb : cexScorer "bad" = -(1 / 2) := rfl
  have hlg : getLabel (1 / 2) = .positive := by unfold getLabel; norm_num
  have hlm : getLabel (0 : ℚ) = .neutral := by unfold getLabel; norm_num
  have hlb : getLabel (-(1 / 2) : ℚ) = .negative := by unfold getLabel; norm_num
  have h2 : (SentimentV1.analyzeMultipleSentiments cexScorer
      ["good", "meh", "bad"]).breakdown =
      { positive := 33, neutral := 33, negative := 33 } := by
    unfold SentimentV1.analyzeMultipleSentiments
    simp only [List.isEmpty_cons, Bool.false_eq_true, if_false,
      List.map_cons, List.map_nil, hg, hm, hb, hlg, hlm, hlb,
      List.countP_cons, List.countP_nil, List.length_cons, List.length_nil]
    simp only [reduceCtorEq, eq_self_iff_true, if_false, if_true,
      ite_false, ite_true]
    norm_num [jsRound]
  exact ⟨h1, by rw [h1]; decide, h2, by rw [h2]; decide⟩

/-- Support for C1: the final revision's synthesized breakdown
(`getBreakdown` of src/unnamed/part_001) does satisfy the invariant — for
every compound score in `[-1, 1]` it emits non-negative integers summing to
exactly 100, because it routes its raw shares through
`normalizePercentages`. -/
theorem final_getBreakdown_spec (score : ℚ) (hlo : -1 ≤ score)
    (hhi : score ≤ 1) :
    0 ≤ (SentimentV2.getBreakdown score).positive ∧
    0 ≤ (SentimentV2.getBreakdown score).neutral ∧
    0 ≤ (SentimentV2.getBreakdown score).negative ∧
    (SentimentV2.getBreakdown score).positive +
      (SentimentV2.getBreakdown score).neutral +
      (SentimentV2.getBreakdown score).negative = 100 := by
  by_cases hp : (1 : ℚ) / 20 ≤ score
  · have hraw : SentimentV2.rawShares score =
        (50 + (score + 1) / 2 * 30,
         100 - (50 + (score + 1) / 2 * 30) - (5 + (1 - (score + 1) / 2) * 10),
         5 + (1 - (score + 1) / 2) * 10) := by
      unfold SentimentV2.rawShares; rw [if_pos hp]
    have spec := normalizePercentages_spec (50 + (score + 1) / 2 * 30)
      (100 - (50 + (score + 1) / 2 * 30) - (5 + (1 - (score + 1) / 2) * 10))
      (5 + (1 - (score + 1) / 2) * 10)
      (by linarith) (by linarith) (by linarith) (by ring)
    simp only [SentimentV2.getBreakdown, hraw]
    exact ⟨spec.1, spec.2.1, spec.2.2.1, spec.2.2.2.1⟩
  · by_cases hn : score ≤ -(1 / 20)
    · have hraw : SentimentV2.rawShares score =
          (5 + (score + 1) / 2 * 10,
           100 - (5 + (score + 1) / 2 * 10) - (50 + (1 - (score + 1) / 2) * 30),
           50 + (1 - (score + 1) / 2) * 30) := by
        unfold SentimentV2.rawShares; rw [if_neg hp, if_pos hn]
      have spec := normalizePercentages_spec (5 + (score + 1) / 2 * 10)
        (100 - (5 + (score + 1) / 2 * 10) - (50 + (1 - (score + 1) / 2) * 30))
        (50 + (1 - (score + 1) / 2) * 30)
        (by linarith) (by linarith) (by linarith) (by ring)
      simp only [SentimentV2.getBreakdown, hraw]
      exact ⟨spec.1, spec.2.1, spec.2.2.1, spec.2.2.2.1⟩
    · have habs : |score| < 1 / 20 := by
        rw [abs_lt]
        constructor <;> [linarith [not_le.mp hn]; linarith [not_le.mp hp]]
      have habs0 : 0 ≤ |score| := abs_nonneg score
      have hneu1 : 50 + (1 - |score| * 20) * 5 ≤ 55 := by nlinarith
      have hneu0 : (0 : ℚ) ≤ 50 + (1 - |score| * 20) * 5 := by nlinarith
      have hs1 : (0 : ℚ) ≤ 1 / 2 + score := by
        have := (abs_lt.mp habs).1; linarith
      have hs2 : (0 : ℚ) ≤ 1 / 2 - score := by
        have := (abs_lt.mp habs).2; linarith
      have hraw : SentimentV2.rawShares score =
          ((100 - (50 + (1 - |score| * 20) * 5)) * (1 / 2 + score),
           50 + (1 - |score| * 20) * 5,
           100 - (50 + (1 - |score| * 20) * 5) -
             (100 - (50 + (1 - |score| * 20) * 5)) * (1 / 2 + score)) := by
        unfold SentimentV2.rawShares; rw [if_neg hp, if_neg hn]
      have spec := normalizePercentages_spec
        ((100 - (50 + (1 - |score| * 20) * 5)) * (1 / 2 + score))
        (50 + (1 - |score| * 20) * 5)
        (100 - (50 + (1 - |score| * 20) * 5) -
          (100 - (50 + (1 - |score| * 20) * 5)) * (1 / 2 + score))
        (by nlinarith) hneu0 (by nlinarith) (by ring)
      simp only [SentimentV2.getBreakdown, hraw]
      exact ⟨spec.1, spec.2.1, spec.2.2.1, spec.2.2.2.1⟩

/-- Support witness: `final_getBreakdown_spec` applied at score 1. -/
theorem final_getBreakdown_spec_witness :
    ((-1 : ℚ) ≤ 1 ∧ (1 : ℚ) ≤ 1) ∧
    (SentimentV2.getBreakdown 1).positive +
      (SentimentV2.getBreakdown 1).neutral +
      (SentimentV2.getBreakdown 1).negative = 100 :=
  ⟨⟨by norm_num, le_refl 1⟩,
    (final_getBreakdown_spec 1 (by norm_num) (le_refl 1)).2.2.2⟩

/-! ## Team matcher and betting filter theorems -/

/-- Invariant of the `matchTeams` accumulation: folding any registry tail
over a duplicate-free accumulator stays duplicate-free and only ever adds
registry keys. -/
theorem matchTeams_fold_spec (entries : List (String × List String))
    (text : List Char) (acc : List String) (hacc : acc.Nodup) :
    (entries.foldl
      (fun acc p =>
        if (p.2.any fun k => occursIn k.data text) && !(decide (p.1 ∈ acc))
        then acc ++ [p.1] else acc) acc).Nodup ∧
    ∀ t ∈ entries.foldl
      (fun acc p =>
        if (p.2.any fun k => occursIn k.data text) && !(decide (p.1 ∈ acc))
        then acc ++ [p.1] else acc) acc,
      t ∈ acc ∨ t ∈ entries.map Prod.fst := by
  induction entries generalizing acc with
  | nil => exact ⟨hacc, fun t ht => Or.inl ht⟩
  | cons p es ih =>
    rw [List.foldl_cons]
    by_cases hcond : ((p.2.any fun k => occursIn k.data text)
        && !(decide (p.1 ∈ acc))) = true
    · rw [if_pos hcond]
      have hnotmem : p.1 ∉ acc := by
        have := (Bool.and_eq_true _ _).mp hcond
        simpa using this.2
      have hacc' : (acc ++ [p.1]).Nodup := by
        simp [List.nodup_append, hacc, hnotmem]
      rcases ih (acc ++ [p.1]) hacc' with ⟨hn, hm⟩
      refine ⟨hn, fun t ht => ?_⟩
      rcases hm t ht with hin | hin
      · rcases List.mem_append.mp hin with h' | h'
        · exact Or.inl h'
        · simp only [List.mem_singleton] at h'
          exact Or.inr (by simp [h'])
      · exact Or.inr (by simp [hin])
    · rw [if_neg hcond]
      rcases ih acc hacc with ⟨hn, hm⟩
      refine ⟨hn, fun t ht => ?_⟩
      rcases hm t ht with hin | hin
      · exact Or.inl hin
      · exact Or.inr (by simp [hin])

/-- C7: for every headline and optional content, `matchTeams` returns a
duplicate-free list, each element of which is one of the 30 abbreviations
keying `TEAM_KEYWORDS`. -/
theorem matchTeams_in_registry (headline : String) (content : Option String) :
    (matchTeams headline content).Nodup ∧
    ∀ t ∈ matchTeams headline content, t ∈ TEAM_KEYWORDS.map Prod.fst := by
  unfold matchTeams
  have h := matchTeams_fold_spec TEAM_KEYWORDS
    ((headline.data ++ [' '] ++ (content.getD "").data).map Char.toLower)
    [] List.nodup_nil
  refine ⟨h.1, fun t ht => ?_⟩
  rcases h.2 t ht with hin | hin
  · cases hin
  · exact hin

/-- C7 witness: the theorem applied to a concrete headline; `LAL` is matched
and is a registry key. -/
theorem matchTeams_in_registry_witness :
    (matchTeams "Lakers beat Warriors" none).Nodup ∧
    "LAL" ∈ TEAM_KEYWORDS.map Prod.fst :=
  ⟨(matchTeams_in_registry "Lakers beat Warriors" none).1,
   (matchTeams_in_registry "Lakers beat Warriors" none).2 "LAL" (by decide)⟩

/-- C8: the promotional filter rejects the "Best Bets …" title with any
description (the deny-list phrase `best bets` occurs in the title), and does
not reject the "Lakers playoff odds …" title whenever the description
contains no deny-list keyword — the bare word `odds` never triggers it. -/
theorem bettingFilter_scenarios :
    (∀ d : String,
      isBettingContent "Best Bets: Lakers vs Warriors odds and player props"
        d = true) ∧
    (∀ d : String,
      (∀ k ∈ BETTING_KEYWORDS,
        occursIn k.data (d.data.map Char.toLower) = false) →
      isBettingContent "Lakers\x27 playoff odds improve after trade" d
        = false) := by
  constructor
  · intro d
    unfold isBettingContent
    rw [List.any_eq_true]
    refine ⟨"best bets", by decide, ?_⟩
    have hsplit :
        (("Best Bets: Lakers vs Warriors odds and player props".data ++ [' ']
            ++ d.data).map Char.toLower)
          = (("Best Bets: Lakers vs Warriors odds and player props".data
              ++ [' ']).map Char.toLower) ++ (d.data.map Char.toLower) := by
      simp [List.map_append]
    rw [hsplit]
    exact occursIn_append_left _ (by decide)
  · intro d hd
    unfold isBettingContent
    rw [List.any_eq_false]
    intro k hk
    have hsplit :
        (("Lakers\x27 playoff odds improve after trade".data ++ [' ']
            ++ d.data).map Char.toLower)
          = (("Lakers\x27 playoff odds improve after trade".data
              ++ [' ']).map Char.toLower) ++ (d.data.map Char.toLower) := by
      simp [List.map_append]
    rw [Bool.not_eq_true, hsplit]
    have hall : BETTING_KEYWORDS.all
        (fun k => !(occursIn k.data
            (("Lakers\x27 playoff odds improve after trade".data
              ++ [' ']).map Char.toLower))
          && !(spanPossible k.data
            (("Lakers\x27 playoff odds improve after trade".data
              ++ [' ']).map Char.toLower))) = true := by decide
    have hk' := List.all_eq_true.mp hall k hk
    rw [Bool.and_eq_true, Bool.not_eq_true', Bool.not_eq_true'] at hk'
    exact not_occursIn_append hk'.1 hk'.2 (hd k hk)

/-- C8 witness: both scenario parts applied at concrete descriptions. -/
theorem bettingFilter_scenarios_witness :
    isBettingContent "Best Bets: Lakers vs Warriors odds and player props"
      "any description" = true ∧
    isBettingContent "Lakers\x27 playoff odds improve after trade"
      "The team improved its chances" = false :=
  ⟨bettingFilter_scenarios.1 "any description",
   bettingFilter_scenarios.2 "The team improved its chances" (by decide)⟩

/-! ## Two-article runs of the deduplicator (time window and entity signal) -/

theorem computeMarks_pair (x y : DedupItem) :
    computeMarks [x, y] = stepInner [x, y] 0 [false, false] 1 := by
  have h : computeMarks [x, y] =
      (if (stepInner [x, y] 0 [false, false] 1).getD 1 false
       then stepInner [x, y] 0 [false, false] 1
       else stepInner [x, y] 0 [false, false] 1) := rfl
  rw [h, ite_self]

/-- In a two-article run whose timestamps are more than 12 hours apart, no
comparison fires and both articles survive. -/
theorem removeDuplicates_pair_far (a b : NewsItem)
    (h : DEDUP_TIME_WINDOW_MS < |a.published_at - b.published_at|) :
    (removeDuplicates [a, b]).length = 2 ∧
    a ∈ removeDuplicates [a, b] ∧ b ∈ removeDuplicates [a, b] := by
  have hmt : markTarget (dedupItems [a, b]) [false, false] 0 1 = none := by
    have h' : DEDUP_TIME_WINDOW_MS <
        |(itemAt (dedupItems [a, b]) 0).time - (itemAt (dedupItems [a, b]) 1).time| := h
    unfold markTarget
    rw [if_neg (by decide : ¬ (([false, false] : List Bool).getD 1 false = true))]
    rw [if_pos h']
  have hmarks : dedupMarks [a, b] = [false, false] := by
    unfold dedupMarks
    rw [show dedupItems [a, b] = [precompute a, precompute b] from rfl]
    rw [computeMarks_pair]
    show stepInner [precompute a, precompute b] 0 [false, false] 1 = [false, false]
    unfold stepInner
    rw [show markTarget [precompute a, precompute b] [false, false] 0 1 =
      markTarget (dedupItems [a, b]) [false, false] 0 1 from rfl, hmt]
  have hsurv : dedupSurvivors [a, b] = [a, b] := by
    unfold dedupSurvivors
    rw [hmarks]
    rfl
  have hrd : removeDuplicates [a, b] = ([a, b] : List NewsItem).mergeSort newerLe := by
    unfold removeDuplicates
    rw [if_neg (by simp : ¬ (([a, b] : List NewsItem).isEmpty = true)), hsurv]
  rw [hrd]
  refine ⟨?_, ?_, ?_⟩
  · exact (List.mergeSort_perm [a, b] newerLe).length_eq
  · exact (List.mergeSort_perm [a, b] newerLe).mem_iff.mpr (by simp)
  · exact (List.mergeSort_perm [a, b] newerLe).mem_iff.mpr (by simp)

/-- In a two-article run within the window whose pair qualifies, exactly the
newer article survives (on a timestamp tie, the first of the pair). -/
theorem removeDuplicates_pair_dup (a b : NewsItem)
    (hw : |a.published_at - b.published_at| ≤ DEDUP_TIME_WINDOW_MS)
    (hd : isDupPair (precompute a) (precompute b) = true) :
    removeDuplicates [a, b] =
      [if b.published_at ≤ a.published_at then a else b] := by
  have hmt : markTarget (dedupItems [a, b]) [false, false] 0 1 =
      (if b.published_at ≤ a.published_at then some 1 else some 0) := by
    have hw' : ¬ (DEDUP_TIME_WINDOW_MS <
        |(itemAt (dedupItems [a, b]) 0).time - (itemAt (dedupItems [a, b]) 1).time|) :=
      not_lt.mpr hw
    have hd' : isDupPair (itemAt (dedupItems [a, b]) 0)
        (itemAt (dedupItems [a, b]) 1) = true := hd
    unfold markTarget
    rw [if_neg (by decide : ¬ (([false, false] : List Bool).getD 1 false = true))]
    rw [if_neg hw']
    rw [if_pos hd']
    rfl
  have hempty : ¬ (([a, b] : List NewsItem).isEmpty = true) := by simp
  by_cases hord : b.published_at ≤ a.published_at
  · rw [if_pos hord] at hmt ⊢
    have hmarks : dedupMarks [a, b] = [false, true] := by
      unfold dedupMarks
      rw [show dedupItems [a, b] = [precompute a, precompute b] from rfl]
      rw [computeMarks_pair]
      show stepInner [precompute a, precompute b] 0 [false, false] 1 = [false, true]
      unfold stepInner
      rw [show markTarget [precompute a, precompute b] [false, false] 0 1 =
        markTarget (dedupItems [a, b]) [false, false] 0 1 from rfl, hmt]
      rfl
    have hsurv : dedupSurvivors [a, b] = [a] := by
      unfold dedupSurvivors
      rw [hmarks]
      rfl
    unfold removeDuplicates
    rw [if_neg hempty, hsurv]
    exact List.mergeSort_of_sorted (List.pairwise_singleton _ _)
  · rw [if_neg hord] at hmt ⊢
    have hmarks : dedupMarks [a, b] = [true, false] := by
      unfold dedupMarks
      rw [show dedupItems [a, b] = [precompute a, precompute b] from rfl]
      rw [computeMarks_pair]
      show stepInner [precompute a, precompute b] 0 [false, false] 1 = [true, false]
      unfold stepInner
      rw [show markTarget [precompute a, precompute b] [false, false] 0 1 =
        markTarget (dedupItems [a, b]) [false, false] 0 1 from rfl, hmt]
      rfl
    have hsurv : dedupSurvivors [a, b] = [b] := by
      unfold dedupSurvivors
      rw [hmarks]
      rfl
    unfold removeDuplicates
    rw [if_neg hempty, hsurv]
    exact List.mergeSort_of_sorted (List.pairwise_singleton _ _)

/-- C5: two articles strictly more than 12 hours apart are never merged
(both survive a two-article run), and two articles within the window whose
similarity or shared-entity count qualifies are merged keeping the newer
one (on a tie, the first). -/
theorem dedup_time_window (a b : NewsItem) :
    (DEDUP_TIME_WINDOW_MS < |a.published_at - b.published_at| →
      (removeDuplicates [a, b]).length = 2 ∧
      a ∈ removeDuplicates [a, b] ∧ b ∈ removeDuplicates [a, b]) ∧
    (|a.published_at - b.published_at| ≤ DEDUP_TIME_WINDOW_MS →
      ((9 : ℚ) / 20 ≤ jaccardSimilarity (precompute a).words (precompute b).words ∨
        MIN_SHARED_ENTITIES ≤ interCount (precompute a).entities (precompute b).entities) →
      removeDuplicates [a, b] =
        [if b.published_at ≤ a.published_at then a else b]) := by
  refine ⟨removeDuplicates_pair_far a b, fun hw hq => ?_⟩
  refine removeDuplicates_pair_dup a b hw ?_
  unfold isDupPair
  rcases hq with hq | hq
  · rw [(similarityGE_iff _ _).mpr hq]
    rfl
  · rw [Bool.or_eq_true]
    exact Or.inr (decide_eq_true_iff.mpr hq)

/-- C5 witness: identical headlines 12 h 1 s apart both survive; identical
headlines 11 h 59 m apart are merged keeping the newer article. -/
theorem dedup_time_window_witness :
    (removeDuplicates [exWinA, exWinB]).length = 2 ∧
    removeDuplicates [exSimA, exSimB] = [exSimB] := by
  constructor
  · exact ((dedup_time_window exWinA exWinB).1 (by decide)).1
  · have h := (dedup_time_window exSimA exSimB).2 (by decide)
      (Or.inl ((similarityGE_iff _ _).mp (by decide)))
    rw [h, if_neg (by decide : ¬ (exSimB.published_at ≤ exSimA.published_at))]

/-- C6: two articles within the window with Jaccard similarity below 0.45
but at least two shared entities are judged duplicates — one of them is
removed. -/
theorem dedup_entity_only (a b : NewsItem)
    (hw : |a.published_at - b.published_at| ≤ DEDUP_TIME_WINDOW_MS)
    (_hsim : jaccardSimilarity (precompute a).words (precompute b).words
      < (9 : ℚ) / 20)
    (hent : MIN_SHARED_ENTITIES ≤
      interCount (precompute a).entities (precompute b).entities) :
    (removeDuplicates [a, b]).length = 1 := by
  have h := removeDuplicates_pair_dup a b hw
    (by unfold isDupPair
        rw [Bool.or_eq_true]
        exact Or.inr (decide_eq_true_iff.mpr hent))
  rw [h]
  rfl

/-- C6 witness: the theorem applied to two concrete articles sharing the
entities `lebron` and `davis` with word-set similarity 2/18. -/
theorem dedup_entity_only_witness :
    (|exEntA.published_at - exEntB.published_at| ≤ DEDUP_TIME_WINDOW_MS) ∧
    (removeDuplicates [exEntA, exEntB]).length = 1 :=
  ⟨by decide,
   dedup_entity_only exEntA exEntB (by decide)
     ((similarityGE_eq_false_iff _ _).mp (by decide)) (by decide)⟩

/-! ## Marking-loop invariants -/

theorem marksLe_refl (m : List Bool) : MarksLe m m := fun _ h => h

theorem marksLe_trans {m₁ m₂ m₃ : List Bool} (h₁ : MarksLe m₁ m₂)
    (h₂ : MarksLe m₂ m₃) : MarksLe m₁ m₃ := fun k h => h₂ k (h₁ k h)

theorem marksLe_set (m : List Bool) (i : ℕ) : MarksLe m (m.set i true) := by
  intro k hk
  by_cases hik : i = k
  · subst hik
    by_cases hlen : i < m.length
    · rw [getD_set_self hlen]
    · rw [List.set_eq_of_length_le (Nat.le_of_not_lt hlen)]
      exact hk
  · rw [getD_set_ne hik]
    exact hk

theorem stepInner_marksLe (items : List DedupItem) (i : ℕ) (m : List Bool)
    (j : ℕ) : MarksLe m (stepInner items i m j) := by
  unfold stepInner
  cases markTarget items m i j with
  | none => exact marksLe_refl m
  | some k => exact marksLe_set m k

theorem foldl_marksLe {g : List Bool → ℕ → List Bool}
    (hg : ∀ m j, MarksLe m (g m j)) :
    ∀ (l : List ℕ) (m : List Bool), MarksLe m (l.foldl g m) := by
  intro l
  induction l with
  | nil => exact fun m => marksLe_refl m
  | cons j t ih =>
    intro m
    rw [List.foldl_cons]
    exact marksLe_trans (hg m j) (ih (g m j))

theorem stepOuter_marksLe (items : List DedupItem) (m : List Bool) (i : ℕ) :
    MarksLe m (stepOuter items m i) := by
  unfold stepOuter
  by_cases h : m.getD i false = true
  · rw [if_pos h]; exact marksLe_refl m
  · rw [if_neg h]
    exact foldl_marksLe (stepInner_marksLe items i) _ m

theorem stepInner_length (items : List DedupItem) (i : ℕ) (m : List Bool)
    (j : ℕ) : (stepInner items i m j).length = m.length := by
  unfold stepInner
  cases markTarget items m i j with
  | none => rfl
  | some k => exact List.length_set m k true

theorem foldl_stepInner_length (items : List DedupItem) (i : ℕ) :
    ∀ (l : List ℕ) (m : List Bool),
      (l.foldl (stepInner items i) m).length = m.length := by
  intro l
  induction l with
  | nil => exact fun _ => rfl
  | cons j t ih =>
    intro m
    rw [List.foldl_cons, ih, stepInner_length]

theorem stepOuter_length (items : List DedupItem) (m : List Bool) (i : ℕ) :
    (stepOuter items m i).length = m.length := by
  unfold stepOuter
  by_cases h : m.getD i false = true
  · rw [if_pos h]
  · rw [if_neg h]
    exact foldl_stepInner_length items i _ m

/-- Whenever a pair `(i, j)` qualifies and both indices are still unmarked
after processing the inner index list, a contradiction arises: the inner
loop would have marked one of them. -/
theorem foldl_stepInner_qual_false (items : List DedupItem) (i : ℕ)
    (hi : i < items.length) :
    ∀ (l : List ℕ) (m : List Bool), m.length = items.length →
      (∀ j ∈ l, j < items.length) →
      ∀ j ∈ l,
        (l.foldl (stepInner items i) m).getD i false = false →
        (l.foldl (stepInner items i) m).getD j false = false →
        dupQualifies (itemAt items i) (itemAt items j) = false := by
  intro l
  induction l with
  | nil => intro m _ _ j hj; cases hj
  | cons j0 rest ih =>
    intro m hm hl j hj hfi hfj
    rw [List.foldl_cons] at hfi hfj
    have hmono : MarksLe (stepInner items i m j0)
        (rest.foldl (stepInner items i) (stepInner items i m j0)) :=
      foldl_marksLe (stepInner_marksLe items i) rest _
    rcases List.mem_cons.mp hj with rfl | hjrest
    · by_contra hq
      have hq' : dupQualifies (itemAt items i) (itemAt items j) = true := by
        cases hqe : dupQualifies (itemAt items i) (itemAt items j)
        · exact absurd hqe hq
        · rfl
      rw [dupQualifies, Bool.and_eq_true] at hq'
      have hwin : ¬ (DEDUP_TIME_WINDOW_MS <
          |(itemAt items i).time - (itemAt items j).time|) :=
        not_lt.mpr (by simpa using hq'.1)
      have hdup : isDupPair (itemAt items i) (itemAt items j) = true := hq'.2
      have hj0m : m.getD j false = false := by
        by_contra hj0m'
        have hj0t : m.getD j false = true := by
          cases hme : m.getD j false
          · exact absurd hme hj0m'
          · rfl
        have hstep : (stepInner items i m j).getD j false = true := by
          unfold stepInner
          cases markTarget items m i j with
          | none => exact hj0t
          | some k => exact marksLe_set m k j hj0t
        exact absurd (hmono j hstep) (by rw [hfj]; exact Bool.false_ne_true)
      have hmtv : markTarget items m i j =
          (if (itemAt items j).time ≤ (itemAt items i).time
           then some j else some i) := by
        unfold markTarget
        rw [if_neg (by rw [hj0m]; exact Bool.false_ne_true), if_neg hwin,
          if_pos hdup]
      have hset : ∃ k, (k = i ∨ k = j) ∧
          (stepInner items i m j).getD k false = true := by
        unfold stepInner
        rw [hmtv]
        by_cases hord : (itemAt items j).time ≤ (itemAt items i).time
        · refine ⟨j, Or.inr rfl, ?_⟩
          rw [if_pos hord]
          exact getD_set_self (hm ▸ hl j hj) true false
        · refine ⟨i, Or.inl rfl, ?_⟩
          rw [if_neg hord]
          exact getD_set_self (hm ▸ hi) true false
      rcases hset with ⟨k, hk, hkt⟩
      rcases hk with rfl | rfl
      · exact absurd (hmono k hkt) (by rw [hfi]; exact Bool.false_ne_true)
      · exact absurd (hmono k hkt) (by rw [hfj]; exact Bool.false_ne_true)
    · exact ih (stepInner items i m j0)
        (by rw [stepInner_length]; exact hm)
        (fun j' hj' => hl j' (List.mem_cons_of_mem j0 hj'))
        j hjrest hfi hfj

/-- Outer-loop soundness: two indices both unmarked in the final array were
compared, so their pair does not qualify. -/
theorem foldl_stepOuter_qual_false (items : List DedupItem) :
    ∀ (l : List ℕ) (m : List Bool), m.length = items.length →
      (∀ i ∈ l, i < items.length) →
      ∀ i ∈ l, ∀ j, i < j → j < items.length →
        (l.foldl (stepOuter items) m).getD i false = false →
        (l.foldl (stepOuter items) m).getD j false = false →
        dupQualifies (itemAt items i) (itemAt items j) = false := by
  intro l
  induction l with
  | nil => intro m _ _ i hi; cases hi
  | cons i0 rest ih =>
    intro m hm hl i hi j hij hj hfi hfj
    rw [List.foldl_cons] at hfi hfj
    have hmono : MarksLe (stepOuter items m i0)
        (rest.foldl (stepOuter items) (stepOuter items m i0)) :=
      foldl_marksLe (stepOuter_marksLe items) rest _
    rcases List.mem_cons.mp hi with rfl | hirest
    · have hm0 : m.getD i false = false := by
        by_contra hm0'
        have hm0t : m.getD i false = true := by
          cases hme : m.getD i false
          · exact absurd hme hm0'
          · rfl
        have : (stepOuter items m i).getD i false = true :=
          stepOuter_marksLe items m i i hm0t
        exact absurd (hmono i this) (by rw [hfi]; exact Bool.false_ne_true)
      have houter : stepOuter items m i = runInner items i m := by
        unfold stepOuter
        rw [if_neg (by rw [hm0]; exact Bool.false_ne_true)]
      have hri : (runInner items i m).getD i false = false := by
        cases hre : (runInner items i m).getD i false
        · rfl
        · exact absurd (hmono i (houter ▸ hre))
            (by rw [hfi]; exact Bool.false_ne_true)
      have hrj : (runInner items i m).getD j false = false := by
        cases hre : (runInner items i m).getD j false
        · rfl
        · exact absurd (hmono j (houter ▸ hre))
            (by rw [hfj]; exact Bool.false_ne_true)
      have hmemj : j ∈ List.range' (i + 1) (items.length - (i + 1)) := by
        rw [List.mem_range'_1]
        constructor
        · exact hij
        · have : i < items.length := hl i hi
          omega
      exact foldl_stepInner_qual_false items i (hl i hi) _ m hm
        (fun j' hj' => by
          have := List.mem_range'_1.mp hj'
          omega)
        j hmemj hri hrj
    · exact ih (stepOuter items m i0)
        (by rw [stepOuter_length]; exact hm)
        (fun i' hi' => hl i' (List.mem_cons_of_mem i0 hi'))
        i hirest j hij hj hfi hfj

/-- Soundness of the final mark array: any two surviving indices were
compared and their pair does not qualify. -/
theorem dedupMarks_spec (articles : List NewsItem) :
    ∀ i j, i < j → j < (dedupItems articles).length →
      (dedupMarks articles).getD i false = false →
      (dedupMarks articles).getD j false = false →
      dupQualifies (itemAt (dedupItems articles) i)
        (itemAt (dedupItems articles) j) = false := by
  intro i j hij hj hfi hfj
  exact foldl_stepOuter_qual_false (dedupItems articles)
    (List.range (dedupItems articles).length)
    (List.replicate (dedupItems articles).length false)
    (List.length_replicate _ _)
    (fun i' hi' => List.mem_range.mp hi')
    i (List.mem_range.mpr (Nat.lt_trans hij hj)) j hij hj hfi hfj

/-! ## Symmetry of the pair test and survivor properties -/

theorem filter_mem_length_eq_inter_card {a b : List (List Char)}
    (ha : a.Nodup) :
    (a.filter fun w => decide (w ∈ b)).length =
      (a.toFinset ∩ b.toFinset).card := by
  rw [← List.toFinset_card_of_nodup (ha.filter _)]
  congr 1
  rw [List.toFinset_filter]
  ext x
  simp [List.mem_toFinset]

theorem interCount_comm {a b : List (List Char)} (ha : a.Nodup)
    (hb : b.Nodup) : interCount a b = interCount b a := by
  unfold interCount
  rw [List.countP_eq_length_filter, List.countP_eq_length_filter,
    filter_mem_length_eq_inter_card ha, filter_mem_length_eq_inter_card hb,
    Finset.inter_comm]

theorem dupQualifies_symm {x y : DedupItem} (hxw : x.words.Nodup)
    (hyw : y.words.Nodup) (hxe : x.entities.Nodup) (hye : y.entities.Nodup) :
    dupQualifies x y = dupQualifies y x := by
  unfold dupQualifies isDupPair similarityGE unionCount
  rw [interCount_comm hxw hyw, interCount_comm hxe hye, abs_sub_comm,
    Nat.add_comm x.words.length y.words.length]

theorem itemAt_dedupItems_lt {articles : List NewsItem} {k : ℕ}
    (hk : k < articles.length) :
    itemAt (dedupItems articles) k =
      precompute (articles.getD k defaultNews) := by
  unfold itemAt dedupItems
  have hk' : k < (articles.map precompute).length := by
    rw [List.length_map]; exact hk
  rw [List.getD_eq_getElem _ _ hk', List.getElem_map,
    List.getD_eq_getElem _ _ hk]

theorem itemAt_is_precompute (articles : List NewsItem) (k : ℕ) :
    ∃ a, itemAt (dedupItems articles) k = precompute a := by
  by_cases hk : k < articles.length
  · exact ⟨_, itemAt_dedupItems_lt hk⟩
  · refine ⟨defaultNews, ?_⟩
    unfold itemAt dedupItems
    rw [List.getD_eq_default]
    · rfl
    · rw [List.length_map]; omega

theorem precompute_nodup_words (a : NewsItem) : (precompute a).words.Nodup :=
  List.nodup_dedup _

theorem precompute_nodup_entities (a : NewsItem) :
    (precompute a).entities.Nodup :=
  List.nodup_dedup _

theorem dedupSurvivors_map_precompute (articles : List NewsItem) :
    (dedupSurvivors articles).map precompute =
      ((List.range (dedupItems articles).length).filter
        fun i => !((dedupMarks articles).getD i false)).map
          fun i => itemAt (dedupItems articles) i := by
  unfold dedupSurvivors
  rw [List.map_map]
  apply List.map_congr_left
  intro i _
  rcases itemAt_is_precompute articles i with ⟨a, ha⟩
  show precompute ((itemAt (dedupItems articles) i).article) =
    itemAt (dedupItems articles) i
  rw [ha]
  rfl

/-- The surviving items of any run are pairwise non-qualifying (in both
orders). -/
theorem dedupSurvivors_pairwise (articles : List NewsItem) :
    ((dedupSurvivors articles).map precompute).Pairwise
      (fun x y => dupQualifies x y = false ∧ dupQualifies y x = false) := by
  rw [dedupSurvivors_map_precompute, List.pairwise_map]
  have hplt : ((List.range (dedupItems articles).length).filter
      fun i => !((dedupMarks articles).getD i false)).Pairwise (· < ·) :=
    (List.pairwise_lt_range _).filter _
  refine hplt.imp_of_mem ?_
  intro i j hi hj hij
  have hi' := List.mem_filter.mp hi
  have hj' := List.mem_filter.mp hj
  have hjlen : j < (dedupItems articles).length := List.mem_range.mp hj'.1
  have hmi : (dedupMarks articles).getD i false = false := by
    simpa using hi'.2
  have hmj : (dedupMarks articles).getD j false = false := by
    simpa using hj'.2
  have hfirst := dedupMarks_spec articles i j hij hjlen hmi hmj
  refine ⟨hfirst, ?_⟩
  rcases itemAt_is_precompute articles i with ⟨ai, hai⟩
  rcases itemAt_is_precompute articles j with ⟨aj, haj⟩
  rw [hai, haj] at hfirst ⊢
  rw [dupQualifies_symm (precompute_nodup_words aj) (precompute_nodup_words ai)
    (precompute_nodup_entities aj) (precompute_nodup_entities ai)]
  exact hfirst

theorem getD_replicate_false (n k : ℕ) :
    (List.replicate n false).getD k false = false := by
  by_cases hk : k < n
  · rw [List.getD_eq_getElem _ _ (by rw [List.length_replicate]; exact hk)]
    exact List.getElem_replicate _ _
  · rw [List.getD_eq_default]
    rw [List.length_replicate]
    omega

/-- If no pair qualifies, the marking phase marks nothing. -/
theorem computeMarks_of_pairwise (items : List DedupItem)
    (h : ∀ i j, i < j → j < items.length →
      dupQualifies (itemAt items i) (itemAt items j) = false) :
    computeMarks items = List.replicate items.length false := by
  unfold computeMarks
  apply foldl_fixed_of
  intro i hi
  unfold stepOuter
  rw [if_neg (by rw [getD_replicate_false]; exact Bool.false_ne_true)]
  unfold runInner
  apply foldl_fixed_of
  intro j hj
  have hij := List.mem_range'_1.mp hj
  have hi' := List.mem_range.mp hi
  have hq := h i j (by omega) (by omega)
  unfold stepInner
  have hmt : markTarget items (List.replicate items.length false) i j
      = none := by
    unfold markTarget
    rw [if_neg (by rw [getD_replicate_false]; exact Bool.false_ne_true)]
    by_cases hwin : DEDUP_TIME_WINDOW_MS <
        |(itemAt items i).time - (itemAt items j).time|
    · rw [if_pos hwin]
    · rw [if_neg hwin]
      have hdec : decide (|(itemAt items i).time - (itemAt items j).time| ≤
          DEDUP_TIME_WINDOW_MS) = true :=
        decide_eq_true_iff.mpr (not_lt.mp hwin)
      unfold dupQualifies at hq
      rw [hdec, Bool.true_and] at hq
      rw [if_neg (by rw [hq]; exact Bool.false_ne_true)]
  rw [hmt]

theorem pairwise_index_of_pairwise {items : List DedupItem}
    (h : items.Pairwise
      (fun x y => dupQualifies x y = false ∧ dupQualifies y x = false)) :
    ∀ i j, i < j → j < items.length →
      dupQualifies (itemAt items i) (itemAt items j) = false := by
  intro i j hij hj
  have hi : i < items.length := Nat.lt_trans hij hj
  have hR := List.pairwise_iff_get.mp h ⟨i, hi⟩ ⟨j, hj⟩ hij
  have hgi : itemAt items i = items.get ⟨i, hi⟩ := by
    unfold itemAt
    rw [List.getD_eq_getElem _ _ hi, List.get_eq_getElem]
  have hgj : itemAt items j = items.get ⟨j, hj⟩ := by
    unfold itemAt
    rw [List.getD_eq_getElem _ _ hj, List.get_eq_getElem]
  rw [hgi, hgj]
  exact hR.1

theorem newerLe_trans (a b c : NewsItem) (h₁ : newerLe a b = true)
    (h₂ : newerLe b c = true) : newerLe a c = true := by
  unfold newerLe at h₁ h₂ ⊢
  rw [decide_eq_true_iff] at h₁ h₂ ⊢
  exact le_trans h₂ h₁

theorem newerLe_total (a b : NewsItem) :
    (newerLe a b || newerLe b a) = true := by
  unfold newerLe
  rcases Int.le_total b.published_at a.published_at with h | h
  · rw [decide_eq_true_iff.mpr h, Bool.true_or]
  · rw [decide_eq_true_iff.mpr h, Bool.or_true]

/-- A run of the deduplicator on a list that is already pairwise
non-qualifying and sorted newest-first returns it unchanged. -/
theorem removeDuplicates_eq_self {ys : List NewsItem}
    (h1 : (ys.map precompute).Pairwise
      (fun x y => dupQualifies x y = false ∧ dupQualifies y x = false))
    (h2 : ys.Pairwise (fun a b => newerLe a b = true)) :
    removeDuplicates ys = ys := by
  cases ys with
  | nil => rfl
  | cons y0 yt =>
    unfold removeDuplicates
    rw [if_neg (by simp : ¬ (((y0 :: yt) : List NewsItem).isEmpty = true))]
    have hmarks : dedupMarks (y0 :: yt) =
        List.replicate (dedupItems (y0 :: yt)).length false := by
      unfold dedupMarks
      exact computeMarks_of_pairwise _ (pairwise_index_of_pairwise h1)
    have hlen : (dedupItems (y0 :: yt)).length = (y0 :: yt).length :=
      List.length_map _ _
    have hsurv : dedupSurvivors (y0 :: yt) = y0 :: yt := by
      unfold dedupSurvivors
      rw [hmarks]
      have hfilter : ((List.range (dedupItems (y0 :: yt)).length).filter
          fun i => !((List.replicate (dedupItems (y0 :: yt)).length
            false).getD i false))
          = List.range (dedupItems (y0 :: yt)).length := by
        rw [List.filter_eq_self]
        intro a _
        rw [getD_replicate_false]
        rfl
      rw [hfilter, hlen]
      rw [List.map_congr_left (fun i hi => by
        rw [itemAt_dedupItems_lt (List.mem_range.mp hi)])]
      exact map_getD_range _ _
    rw [hsurv]
    exact List.mergeSort_of_sorted h2

/-- C3: the deduplicator is idempotent — applying `removeDuplicates` to its
own output returns that output unchanged. -/
theorem removeDuplicates_idempotent (xs : List NewsItem) :
    removeDuplicates (removeDuplicates xs) = removeDuplicates xs := by
  cases xs with
  | nil => rfl
  | cons x0 xt =>
    have hrd : removeDuplicates (x0 :: xt) =
        (dedupSurvivors (x0 :: xt)).mergeSort newerLe := by
      unfold removeDuplicates
      rw [if_neg (by simp : ¬ (((x0 :: xt) : List NewsItem).isEmpty = true))]
    apply removeDuplicates_eq_self
    · rw [hrd]
      have hperm : (((dedupSurvivors (x0 :: xt)).mergeSort newerLe).map
          precompute).Perm ((dedupSurvivors (x0 :: xt)).map precompute) :=
        (List.mergeSort_perm _ _).map precompute
      have hsymR : ∀ {u v : DedupItem},
          (dupQualifies u v = false ∧ dupQualifies v u = false) →
          (dupQualifies v u = false ∧ dupQualifies u v = false) :=
        fun h => ⟨h.2, h.1⟩
      exact (hperm.pairwise_iff hsymR).mpr (dedupSurvivors_pairwise (x0 :: xt))
    · rw [hrd]
      exact List.sorted_mergeSort newerLe_trans newerLe_total _

/-- C10: the deduplicator neither creates nor mutates articles — every
article occurs in the output at most as often as in the input (hence every
output article is one of the input articles, all fields unchanged). -/
theorem removeDuplicates_count_le (xs : List NewsItem) (a : NewsItem) :
    (removeDuplicates xs).count a ≤ xs.count a := by
  cases xs with
  | nil => exact Nat.le_refl _
  | cons x0 xt =>
    have hrd : removeDuplicates (x0 :: xt) =
        (dedupSurvivors (x0 :: xt)).mergeSort newerLe := by
      unfold removeDuplicates
      rw [if_neg (by simp : ¬ (((x0 :: xt) : List NewsItem).isEmpty = true))]
    rw [hrd, (List.mergeSort_perm _ _).count_eq]
    have hlen : (dedupItems (x0 :: xt)).length = (x0 :: xt).length :=
      List.length_map _ _
    have hsub : (dedupSurvivors (x0 :: xt)).Sublist (x0 :: xt) := by
      unfold dedupSurvivors
      have h1 : (((List.range (dedupItems (x0 :: xt)).length).filter
          fun i => !((dedupMarks (x0 :: xt)).getD i false))).Sublist
          (List.range (dedupItems (x0 :: xt)).length) :=
        List.filter_sublist _
      have h2 := h1.map fun i => (itemAt (dedupItems (x0 :: xt)) i).article
      have h3 : (List.range (dedupItems (x0 :: xt)).length).map
          (fun i => (itemAt (dedupItems (x0 :: xt)) i).article)
          = (x0 :: xt) := by
        rw [hlen]
        rw [List.map_congr_left (fun i hi => by
          rw [itemAt_dedupItems_lt (List.mem_range.mp hi)])]
        exact map_getD_range _ _
      rw [h3] at h2
      exact h2
    exact hsub.count_le a

theorem traceInv_append (tr : List DedupEvent) (e : DedupEvent)
    (h : TraceInv tr)
    (h1 : e.jLive = false → e.marked = none)
    (h2 : e.iLive = false →
      ∃ e' ∈ tr ++ [e], e'.i = e.i ∧ e'.marked = some e.i) :
    TraceInv (tr ++ [e]) := by
  intro e' he'
  rcases List.mem_append.mp he' with h' | h'
  · rcases h e' h' with ⟨ha, hb⟩
    refine ⟨ha, fun hil => ?_⟩
    rcases hb hil with ⟨e'', he'', hp⟩
    exact ⟨e'', List.mem_append_left _ he'', hp⟩
  · rw [List.mem_singleton] at h'
    subst h'
    exact ⟨h1, h2⟩

theorem stepInnerT_inv (items : List DedupItem) (i : ℕ)
    (s : List Bool × List DedupEvent) (j : ℕ)
    (hI : TraceInv s.2)
    (hP : s.1.getD i false = true →
      ∃ e' ∈ s.2, e'.i = i ∧ e'.marked = some i) :
    TraceInv (stepInnerT items i s j).2 ∧
    ((stepInnerT items i s j).1.getD i false = true →
      ∃ e' ∈ (stepInnerT items i s j).2, e'.i = i ∧ e'.marked = some i) := by
  constructor
  · apply traceInv_append _ _ hI
    · intro hjl
      have hj : s.1.getD j false = true := by simpa using hjl
      show markTarget items s.1 i j = none
      unfold markTarget
      rw [if_pos hj]
    · intro hil
      have hi : s.1.getD i false = true := by simpa using hil
      rcases hP hi with ⟨e', he', hp⟩
      exact ⟨e', List.mem_append_left _ he', hp⟩
  · intro hset
    by_cases hoi : s.1.getD i false = true
    · rcases hP hoi with ⟨e', he', hp⟩
      exact ⟨e', List.mem_append_left _ he', hp⟩
    · have hoi' : s.1.getD i false = false := by
        cases hx : s.1.getD i false
        · rfl
        · exact absurd hx hoi
      have hmt : markTarget items s.1 i j = some i := by
        show markTarget items s.1 i j = some i
        have hset' : (stepInner items i s.1 j).getD i false = true := hset
        unfold stepInner at hset'
        cases hmt : markTarget items s.1 i j with
        | none =>
          rw [hmt] at hset'
          rw [hoi'] at hset'
          exact absurd hset' Bool.false_ne_true
        | some k =>
          rw [hmt] at hset'
          by_cases hk : k = i
          · rw [hk]
          · rw [getD_set_ne hk] at hset'
            rw [hoi'] at hset'
            exact absurd hset' Bool.false_ne_true
      refine ⟨DedupEvent.mk i j (!(s.1.getD i false)) (!(s.1.getD j false))
          (markTarget items s.1 i j),
        List.mem_append_right _ (List.mem_singleton.mpr rfl), rfl, ?_⟩
      rw [hmt]

theorem foldl_stepInnerT_inv (items : List DedupItem) (i : ℕ) :
    ∀ (l : List ℕ) (s : List Bool × List DedupEvent), TraceInv s.2 →
      (s.1.getD i false = true → ∃ e' ∈ s.2, e'.i = i ∧ e'.marked = some i) →
      TraceInv (l.foldl (stepInnerT items i) s).2 ∧
      ((l.foldl (stepInnerT items i) s).1.getD i false = true →
        ∃ e' ∈ (l.foldl (stepInnerT items i) s).2,
          e'.i = i ∧ e'.marked = some i) := by
  intro l
  induction l with
  | nil => exact fun s hI hP => ⟨hI, hP⟩
  | cons j t ih =>
    intro s hI hP
    rw [List.foldl_cons]
    have hstep := stepInnerT_inv items i s j hI hP
    exact ih (stepInnerT items i s j) hstep.1 hstep.2

theorem stepOuterT_inv (items : List DedupItem)
    (s : List Bool × List DedupEvent) (i : ℕ) (hI : TraceInv s.2) :
    TraceInv (stepOuterT items s i).2 := by
  unfold stepOuterT
  by_cases h : s.1.getD i false = true
  · rw [if_pos h]
    exact hI
  · rw [if_neg h]
    unfold runInnerT
    exact (foldl_stepInnerT_inv items i _ s hI (fun hc => absurd hc h)).1

/-- C2 (amended): in every run of the deduplicator, a pair visit whose
second article was already removed performs no comparison marking, and a
pair visit whose first (outer) article was already removed only occurs after
an earlier comparison of the same outer iteration marked that article — an
article removed mid-iteration keeps being compared as the outer article. -/
theorem dedupTrace_spec (articles : List NewsItem) :
    ∀ e ∈ dedupTrace articles,
      (e.jLive = false → e.marked = none) ∧
      (e.iLive = false →
        ∃ e' ∈ dedupTrace articles, e'.i = e.i ∧ e'.marked = some e.i) := by
  have hfold : ∀ (l : List ℕ) (s : List Bool × List DedupEvent),
      TraceInv s.2 →
      TraceInv ((l.foldl (stepOuterT (dedupItems articles)) s)).2 := by
    intro l
    induction l with
    | nil => exact fun _ h => h
    | cons i t ih =>
      intro s h
      rw [List.foldl_cons]
      exact ih _ (stepOuterT_inv _ s i h)
  exact hfold _ _ (fun e he => absurd he (List.not_mem_nil e))

/-- C2 counterexample: on the concrete three-article input, a pair visit
happens whose first article was already marked removed and which marks the
still-unremoved second article — refuting the claim that no later pair
comparison involves an already-removed article. -/
theorem dedupTrace_removed_removes_live :
    ((dedupTrace exDedupList).any fun e =>
      !e.iLive && e.jLive && decide (e.marked = some e.j)) = true := by
  decide

/-- C2 witness: the amended theorem applied at the concrete input, both to
the dead-outer-article visit `(0, 2)` and to the skipped dead-inner visit
`(1, 2)`. -/
theorem dedupTrace_spec_witness :
    (∃ e' ∈ dedupTrace exDedupList, e'.i = 0 ∧ e'.marked = some 0) ∧
    ({ i := 1, j := 2, iLive := true, jLive := false,
        marked := none } : DedupEvent).marked = none := by
  constructor
  · exact (dedupTrace_spec exDedupList
      { i := 0, j := 2, iLive := false, jLive := true, marked := some 2 }
      (by decide)).2 rfl
  · exact (dedupTrace_spec exDedupList
      { i := 1, j := 2, iLive := true, jLive := false, marked := none }
      (by decide)).1 rfl

